import Mathlib

/-!
Verification of the K-Means DNA-sequence clustering program.

Shallow embedding conventions:
- Python strings are modelled as `List Char`; Python slices and indexing
  are modelled by `List.drop`/`List.take` and explicit index arithmetic.
- Python numbers (ints and floats) are modelled as `ℚ`; feature-vector
  counts are modelled as `ℕ` where the code only ever produces counts.
- Code that can raise is modelled with `Except PyErr` (or `Option`);
  `PyErr` distinguishes the exception classes the code raises.
- Mutation is modelled by explicit state passing: each mutating method of
  the Python classes becomes a function from the structure to the
  structure.
-/

namespace KMeansModel

/-- Exception classes raised by the program: ValueError carries its
message, IndexError models Python built-in indexing failures,
NotImplementedError models the abstract-kernel failure. -/
inductive PyErr where
  | valueError (msg : String) : PyErr
  | indexError : PyErr
  | notImplementedError (msg : String) : PyErr
  deriving DecidableEq, Repr

/-- Dynamically-typed Python value, used to model the untyped payload
reaching the Sequence constructor. -/
inductive PyVal where
  | vstr (s : List Char) : PyVal
  | vint (n : Int) : PyVal
  | vfloat (q : ℚ) : PyVal
  | vlist (l : List PyVal) : PyVal
  | vnone : PyVal
  deriving Repr

/-- State of a Python Sequence object (sequence.py, class Sequence). -/
structure Sequence where
  seqStr : List Char
  seqLst : List Char
  id : List Char
  kmers : List (List Char)
  features : List ℚ
  deriving DecidableEq, Repr

namespace Sequence

/-- Embeds the seqStr property setter (sequence.py lines 68-73): stores
the payload when it is a str, raises ValueError otherwise. -/
def seqStrSetter (seq : PyVal) : Except PyErr (List Char) :=
  match seq with
  | .vstr s => .ok s
  | _ => .error (.valueError "seq must be a str")

/-- Embeds Sequence.__init__ (sequence.py lines 42-56): the seqStr
setter validates the payload; on success the remaining attributes are
set (list(seq) is the character list of the string, kmers and features
start empty). -/
def mk' (seq : PyVal) (id : List Char) : Except PyErr Sequence :=
  (seqStrSetter seq).map (fun s =>
    { seqStr := s, seqLst := s, id := id, kmers := [], features := [] })

/-- Embeds Sequence.getLength (sequence.py lines 176-185). -/
def getLength (s : Sequence) : Nat := s.seqStr.length

/-- Embeds Python string indexing s[pos]: non-negative indices below the
length index from the front, negative indices from -len to -1 index from
the back, anything else raises IndexError. -/
def pyIndex (l : List Char) (pos : Int) : Except PyErr Char :=
  if 0 ≤ pos ∧ pos < (l.length : Int) then
    .ok (l.getD pos.toNat ' ')
  else if -(l.length : Int) ≤ pos ∧ pos < 0 then
    .ok (l.getD ((l.length : Int) + pos).toNat ' ')
  else
    .error .indexError

/-- Embeds Sequence.getBase (sequence.py lines 158-174): raises the
descriptive ValueError when pos is at least the length, otherwise
returns self.seqStr[pos] under Python indexing semantics. -/
def getBase (s : Sequence) (pos : Int) : Except PyErr Char :=
  if pos ≥ (s.getLength : Int) then
    .error (.valueError
      (toString pos ++ " greater than length " ++ toString (s.getLength : Int)))
  else
    pyIndex s.seqStr pos

/-- Embeds Sequence._buildKmers (sequence.py lines 133-148): slides a
window of width size over the string; stop = length - (size - 1)
start offsets, window i is self.seqStr[i : i + size]. -/
def buildKmers (s : List Char) (size : Nat) : List (List Char) :=
  (List.range (s.length - (size - 1))).map (fun i => (s.drop i).take size)

end Sequence

/-- Embeds Spectrum.featureVector (kernel.py lines 76-86): for each
vocabulary entry (outer loop over self.kmers) count the input k-mers
equal to it (inner loop over kmers). -/
def spectrumFeatureVector (vocab : List (List Char)) (kmers : List (List Char)) :
    List Nat :=
  vocab.map (fun w => kmers.foldl (fun count k => if k = w then count + 1 else count) 0)

/-- Embeds Mismatch._numMismatch (kernel.py lines 108-114): counts the
positions i below len(ref) where ref[i] differs from cand[i]; accessing
cand[i] raises IndexError when cand is shorter than ref, modelled by
returning an error. -/
def numMismatch (ref cand : List Char) : Except PyErr Nat :=
  if ref.length ≤ cand.length then
    .ok ((List.range ref.length).countP
      (fun i => decide (ref.getD i 'A' ≠ cand.getD i 'A')))
  else
    .error .indexError

/-- Embeds Mismatch.featureVector (kernel.py lines 116-126): for each
vocabulary entry (outer loop over self.kmers) count the input k-mers
whose mismatch count against it is at most the budget; any IndexError
raised by _numMismatch propagates. -/
def mismatchFeatureVector (vocab : List (List Char)) (budget : Nat)
    (kmers : List (List Char)) : Except PyErr (List Nat) :=
  vocab.mapM (fun w =>
    (kmers.mapM (fun c => numMismatch c w)).map
      (fun dists => dists.countP (fun d => decide (d ≤ budget))))

/-- Spec-side Hamming distance between equal-length strings: the number
of positions at which the two strings differ. -/
def hammingDist (a b : List Char) : Nat :=
  ((a.zip b).filter (fun p => decide (p.1 ≠ p.2))).length

/-- Embeds str(self.centroid) (cluster.py lines 74, 85): the serialized
snapshot of a centroid, compared by string equality. -/
def serializeCentroid (centroid : List ℚ) : String := toString centroid

/-- State of a Python Cluster object (cluster.py, class Cluster):
centroid vector, history log of serialized centroids, membership list. -/
structure Cluster where
  centroid : List ℚ
  log : List String
  members : List Sequence
  deriving DecidableEq, Repr

namespace Cluster

/-- Embeds Cluster._add (cluster.py lines 57-59). -/
def add (c : Cluster) (member : Sequence) : Cluster :=
  { c with members := c.members ++ [member] }

/-- Embeds Cluster._update (cluster.py lines 61-70): when the membership
is non-empty, each centroid entry i becomes the sum over members of
features[i] divided by the member count; otherwise nothing happens.
Members' feature vectors are at least centroid-length in every reachable
state (features length = vocabulary size = centroid dimension), so the
in-range read members[j].features[i] is modelled with getD. -/
def update (c : Cluster) : Cluster :=
  if c.members.length = 0 then c
  else
    { c with centroid :=
        (List.range c.centroid.length).map (fun i =>
          (c.members.foldl (fun total m => total + m.features.getD i 0) 0) /
            (c.members.length : ℚ)) }

/-- Embeds Cluster._record (cluster.py lines 72-75): appends the
serialized current centroid to the history log. -/
def record (c : Cluster) : Cluster :=
  { c with log := c.log ++ [serializeCentroid c.centroid] }

/-- Embeds Cluster._clear (cluster.py lines 77-79): empties the
membership list. -/
def clear (c : Cluster) : Cluster := { c with members := [] }

/-- Embeds Cluster._check (cluster.py lines 81-87): with a non-empty log,
compares the serialized current centroid to the last log entry
(self.log[-1]); with an empty log returns False. -/
def check (c : Cluster) : Bool :=
  if 0 < c.log.length then serializeCentroid c.centroid == c.log.getLastD ""
  else false

end Cluster

/-- Embeds Kernel.dotProduct (kernel.py lines 61-66): sum of pairwise
products, the loop index running over the first vector's length. Both
vectors have vocabulary length in every reachable state, so the read
v2[i] is modelled with getD. -/
def dotProduct (v1 v2 : List ℚ) : ℚ :=
  (List.range v1.length).foldl (fun dot i => dot + v1.getD i 0 * v2.getD i 0) 0

/-- Embeds Kmeans._computeDot (kmeans.py lines 83-89): the list of dot
products of the sequence's feature vector against every centroid. -/
def computeDot (features : List ℚ) (clusters : List Cluster) : List ℚ :=
  clusters.map (fun c => dotProduct features c.centroid)

/-- Embeds Python max on a list of numbers: none on the empty list
(Python raises ValueError), otherwise the greatest element. -/
def pyMax : List ℚ → Option ℚ
  | [] => none
  | x :: xs => some (xs.foldl (fun a b => if a < b then b else a) x)

/-- Embeds Kmeans._chooseCluster (kmeans.py lines 91-98): target is
max(products); the loop leaves idx at the last index whose product
equals the target. -/
def chooseCluster (products : List ℚ) : Option Nat :=
  (pyMax products).map (fun target =>
    (List.range products.length).foldl
      (fun idx i => if products.getD i 0 = target then i else idx) 0)

/-- A default cluster value used only to totalize list indexing at
indices proved to be in range. -/
def emptyCluster : Cluster := ⟨[], [], []⟩

/-- Embeds one iteration of the loop body of Kmeans._assignSeqs
(kmeans.py lines 100-105): choose the cluster for one sequence and
append the sequence to its membership. -/
def assignOne (seq : Sequence) (clusters : List Cluster) : List Cluster :=
  match chooseCluster (computeDot seq.features clusters) with
  | none => clusters
  | some idx => clusters.set idx ((clusters.getD idx emptyCluster).add seq)

/-- Embeds Kmeans._assignSeqs (kmeans.py lines 100-105): assigns each
sequence in order. -/
def assignSeqs (seqs : List Sequence) (clusters : List Cluster) : List Cluster :=
  seqs.foldl (fun cs s => assignOne s cs) clusters

/-- Embeds Kmeans._updateClusters (kmeans.py lines 107-111): each
cluster records its centroid into the log, then recomputes it. -/
def updateClusters (clusters : List Cluster) : List Cluster :=
  clusters.map (fun c => c.record.update)

/-- Embeds Kmeans._checkClusters (kmeans.py lines 113-121): counts the
clusters whose convergence check holds and compares the count to k. -/
def checkClusters (k : Nat) (clusters : List Cluster) : Bool :=
  clusters.countP (fun c => c.check) == k

/-- Embeds Kmeans._clearClusters (kmeans.py lines 123-126). -/
def clearClusters (clusters : List Cluster) : List Cluster :=
  clusters.map (fun c => c.clear)

/-- One pass of the body of the while loop in Kmeans.execute
(kmeans.py lines 133-135): clear memberships, assign sequences,
record-and-update centroids. -/
def iterateOnce (seqs : List Sequence) (clusters : List Cluster) : List Cluster :=
  updateClusters (assignSeqs seqs (clearClusters clusters))

/-- Embeds the while loop of Kmeans.execute (kmeans.py lines 128-136):
while (not self._checkClusters()) and (run < limit), run the body and
increment run. -/
def executeLoop (seqs : List Sequence) (k limit : Nat) (run : Nat)
    (clusters : List Cluster) : List Cluster × Nat :=
  if h : checkClusters k clusters = true ∨ limit ≤ run then (clusters, run)
  else executeLoop seqs k limit (run + 1) (iterateOnce seqs clusters)
termination_by limit - run
decreasing_by
  push_neg at h
  omega

/-- Embeds Kmeans.execute (kmeans.py lines 128-136) after self._init():
the initial clusters (randomly seeded by Cluster._init) and the
sequences (with feature vectors computed by _initSequences) are taken as
inputs, and the loop starts with run = 1. Returns the final cluster
list and the final value of the run counter. -/
def execute (seqs : List Sequence) (k limit : Nat)
    (clusters : List Cluster) : List Cluster × Nat :=
  executeLoop seqs k limit 1 clusters

/-- Claim C5: for a sequence of length L and positive size, the k-mer
decomposition yields exactly L - size + 1 substrings when size ≤ L, each
of length size and equal to the contiguous window of the raw string at
its offset, in left-to-right order; when size > L it yields the empty
list. -/
theorem buildKmers_windows (s : List Char) (size : Nat) (hpos : 1 ≤ size) :
    (size ≤ s.length →
      (Sequence.buildKmers s size).length = s.length - size + 1 ∧
      (∀ i, i < s.length - size + 1 →
        (Sequence.buildKmers s size).getD i [] = (s.drop i).take size ∧
        ((Sequence.buildKmers s size).getD i []).length = size)) ∧
    (s.length < size → Sequence.buildKmers s size = []) := by
  constructor
  · intro hle
    have hlen : (Sequence.buildKmers s size).length = s.length - size + 1 := by
      simp only [Sequence.buildKmers, List.length_map, List.length_range]
      omega
    refine ⟨hlen, fun i hi => ?_⟩
    have hi' : i < (Sequence.buildKmers s size).length := by omega
    have hget : (Sequence.buildKmers s size).getD i [] = (s.drop i).take size := by
      rw [List.getD_eq_getElem _ _ hi']
      simp [Sequence.buildKmers]
    refine ⟨hget, ?_⟩
    rw [hget]
    simp only [List.length_take, List.length_drop]
    omega
  · intro hgt
    have h0 : s.length - (size - 1) = 0 := by omega
    simp [Sequence.buildKmers, h0]

/-- Witness for the k-mer decomposition claim at the docstring example:
the sequence ATTAG with size 2 has the four windows AT, TT, TA, AG. -/
theorem buildKmers_windows_witness :
    1 ≤ 2 ∧
    ((2 ≤ (['A', 'T', 'T', 'A', 'G'] : List Char).length →
      (Sequence.buildKmers ['A', 'T', 'T', 'A', 'G'] 2).length =
        (['A', 'T', 'T', 'A', 'G'] : List Char).length - 2 + 1 ∧
      (∀ i, i < (['A', 'T', 'T', 'A', 'G'] : List Char).length - 2 + 1 →
        (Sequence.buildKmers ['A', 'T', 'T', 'A', 'G'] 2).getD i [] =
          ((['A', 'T', 'T', 'A', 'G'] : List Char).drop i).take 2 ∧
        ((Sequence.buildKmers ['A', 'T', 'T', 'A', 'G'] 2).getD i []).length = 2)) ∧
    ((['A', 'T', 'T', 'A', 'G'] : List Char).length < 2 →
      Sequence.buildKmers ['A', 'T', 'T', 'A', 'G'] 2 = [])) :=
  ⟨by decide, buildKmers_windows ['A', 'T', 'T', 'A', 'G'] 2 (by decide)⟩

theorem foldl_count_eq (w : List Char) (l : List (List Char)) (a : Nat) :
    l.foldl (fun count k => if k = w then count + 1 else count) a = a + l.count w := by
  induction l generalizing a with
  | nil => simp
  | cons x xs ih =>
    by_cases hx : x = w
    · simp [List.count_cons, hx, ih]
      omega
    · simp [List.count_cons, hx, ih]

/-- Claim C6: the Spectrum feature vector has one entry per vocabulary
entry, and entry i is the exact multiplicity of vocabulary entry i in
the input k-mer list. -/
theorem spectrum_multiplicity (vocab kmers : List (List Char)) :
    (spectrumFeatureVector vocab kmers).length = vocab.length ∧
    ∀ i, i < vocab.length →
      (spectrumFeatureVector vocab kmers).getD i 0 =
        kmers.count (vocab.getD i []) := by
  refine ⟨by simp [spectrumFeatureVector], fun i hi => ?_⟩
  have hi' : i < (spectrumFeatureVector vocab kmers).length := by
    simp [spectrumFeatureVector, hi]
  rw [List.getD_eq_getElem _ _ hi', List.getD_eq_getElem _ _ hi]
  simp [spectrumFeatureVector, foldl_count_eq]

/-- Witness for the Spectrum claim at the spec example: vocabulary
AT, TA with input AT, TA, AT gives the vector 2, 1. -/
theorem spectrum_multiplicity_witness :
    ((spectrumFeatureVector [['A', 'T'], ['T', 'A']]
        [['A', 'T'], ['T', 'A'], ['A', 'T']]).length =
      ([['A', 'T'], ['T', 'A']] : List (List Char)).length ∧
    ∀ i, i < ([['A', 'T'], ['T', 'A']] : List (List Char)).length →
      (spectrumFeatureVector [['A', 'T'], ['T', 'A']]
          [['A', 'T'], ['T', 'A'], ['A', 'T']]).getD i 0 =
        ([['A', 'T'], ['T', 'A'], ['A', 'T']] : List (List Char)).count
          (([['A', 'T'], ['T', 'A']] : List (List Char)).getD i [])) ∧
    spectrumFeatureVector [['A', 'T'], ['T', 'A']]
      [['A', 'T'], ['T', 'A'], ['A', 'T']] = [2, 1] :=
  ⟨spectrum_multiplicity [['A', 'T'], ['T', 'A']]
    [['A', 'T'], ['T', 'A'], ['A', 'T']], by decide⟩

theorem numMismatch_eq_hamming (ref cand : List Char)
    (h : ref.length ≤ cand.length) :
    numMismatch ref cand = .ok (hammingDist ref cand) := by
  rw [numMismatch, if_pos h]
  congr 1
  induction ref generalizing cand with
  | nil => simp [hammingDist]
  | cons x xs ih =>
    cases cand with
    | nil => simp at h
    | cons y ys =>
      have hys : xs.length ≤ ys.length := by simpa using h
      simp only [List.length_cons, List.range_succ_eq_map, List.countP_cons,
        List.countP_map]
      have hxy : hammingDist (x :: xs) (y :: ys) =
          hammingDist xs ys + (if x ≠ y then 1 else 0) := by
        by_cases hcase : x = y <;> simp [hammingDist, hcase]
      rw [hxy, ← ih ys hys]
      by_cases hcase : x = y <;>
        simp [hcase, Function.comp_def, List.getD_cons_succ, List.getD_cons_zero]

theorem mapM_except_ok {α β ε : Type} (f : α → Except ε β) (g : α → β)
    (l : List α) (h : ∀ x ∈ l, f x = .ok (g x)) :
    l.mapM f = .ok (l.map g) := by
  induction l with
  | nil => rfl
  | cons x xs ih =>
    rw [List.mapM_cons, h x (by simp)]
    rw [ih (fun y hy => h y (by simp [hy]))]
    rfl

/-- Claim C7: when every input k-mer has the common vocabulary-entry
length, the Mismatch feature vector succeeds, has one entry per
vocabulary entry, and entry i counts the input k-mers whose Hamming
distance to vocabulary entry i is at most the budget. -/
theorem mismatch_hamming_count (vocab : List (List Char)) (budget : Nat)
    (kmers : List (List Char)) (L : Nat)
    (hv : ∀ w ∈ vocab, w.length = L) (hk : ∀ c ∈ kmers, c.length = L) :
    ∃ v, mismatchFeatureVector vocab budget kmers = .ok v ∧
      v.length = vocab.length ∧
      ∀ i, i < vocab.length →
        v.getD i 0 =
          kmers.countP
            (fun c => decide (hammingDist c (vocab.getD i []) ≤ budget)) := by
  refine ⟨vocab.map (fun w =>
    kmers.countP (fun c => decide (hammingDist c w ≤ budget))), ?_, by simp,
    fun i hi => ?_⟩
  · rw [mismatchFeatureVector]
    refine mapM_except_ok _ _ _ (fun w hw => ?_)
    have hlist : kmers.mapM (fun c => numMismatch c w) =
        .ok (kmers.map (fun c => hammingDist c w)) := by
      refine mapM_except_ok _ _ _ (fun c hc => ?_)
      exact numMismatch_eq_hamming c w (by rw [hk c hc, hv w hw])
    rw [hlist]
    simp [Except.map, List.countP_map, Function.comp_def]
  · have hi' : i < (vocab.map (fun w =>
        kmers.countP (fun c => decide (hammingDist c w ≤ budget)))).length := by
      simp [hi]
    rw [List.getD_eq_getElem _ _ hi', List.getD_eq_getElem _ _ hi]
    simp

/-- Witness for the Mismatch claim at the spec example: budget 1,
vocabulary AAA, input AAA, AAT, TTT gives the vector 2. -/
theorem mismatch_hamming_count_witness :
    (∀ w ∈ ([['A', 'A', 'A']] : List (List Char)), w.length = 3) ∧
    (∀ c ∈ ([['A', 'A', 'A'], ['A', 'A', 'T'], ['T', 'T', 'T']] :
        List (List Char)), c.length = 3) ∧
    (∃ v, mismatchFeatureVector [['A', 'A', 'A']] 1
        [['A', 'A', 'A'], ['A', 'A', 'T'], ['T', 'T', 'T']] = .ok v ∧
      v.length = ([['A', 'A', 'A']] : List (List Char)).length ∧
      ∀ i, i < ([['A', 'A', 'A']] : List (List Char)).length →
        v.getD i 0 =
          ([['A', 'A', 'A'], ['A', 'A', 'T'], ['T', 'T', 'T']] :
            List (List Char)).countP
            (fun c => decide (hammingDist c
              (([['A', 'A', 'A']] : List (List Char)).getD i []) ≤ 1))) ∧
    mismatchFeatureVector [['A', 'A', 'A']] 1
      [['A', 'A', 'A'], ['A', 'A', 'T'], ['T', 'T', 'T']] = .ok [2] :=
  ⟨by decide, by decide,
    mismatch_hamming_count [['A', 'A', 'A']] 1
      [['A', 'A', 'A'], ['A', 'A', 'T'], ['T', 'T', 'T']] 3
      (by decide) (by decide), rfl⟩

/-- Claim C4: hasConverged returns true exactly when the serialized
current centroid equals the most recently recorded history entry, and
returns false whenever the history log is empty. -/
theorem hasConverged_iff (c : Cluster) :
    (c.check = true ↔
      c.log ≠ [] ∧ serializeCentroid c.centroid = c.log.getLastD "") ∧
    (c.log = [] → c.check = false) := by
  constructor
  · rw [Cluster.check]
    by_cases h : 0 < c.log.length
    · have hne : c.log ≠ [] := List.length_pos.mp h
      simp [h, hne]
    · have hnil : c.log = [] := List.length_eq_zero.mp (by omega)
      simp [h, hnil]
  · intro h
    simp [Cluster.check, h]

/-- Witness for the convergence-check claim: a cluster with an empty
log has a false convergence check. -/
theorem hasConverged_iff_witness :
    (⟨[(1 : ℚ)], [], []⟩ : Cluster).log = [] ∧
    (⟨[(1 : ℚ)], [], []⟩ : Cluster).check = false :=
  ⟨rfl, (hasConverged_iff ⟨[(1 : ℚ)], [], []⟩).2 rfl⟩

/-- Claim C8: clearMembers empties the membership list and leaves both
the centroid and the history log unchanged. -/
theorem clearMembers_frame (c : Cluster) :
    (c.clear).members = [] ∧ (c.clear).centroid = c.centroid ∧
    (c.clear).log = c.log :=
  ⟨rfl, rfl, rfl⟩

/-- Claim C9: constructing a Sequence from a non-string payload fails
with a ValueError and produces no Sequence, while construction from any
string payload succeeds. -/
theorem sequence_ctor_validates (id : List Char) :
    (∀ v : PyVal, (∀ s, v ≠ .vstr s) →
      Sequence.mk' v id = .error (.valueError "seq must be a str")) ∧
    (∀ s, Sequence.mk' (.vstr s) id =
      .ok { seqStr := s, seqLst := s, id := id, kmers := [], features := [] }) := by
  constructor
  · intro v hv
    cases v with
    | vstr s => exact absurd rfl (hv s)
    | vint n => rfl
    | vfloat q => rfl
    | vlist l => rfl
    | vnone => rfl
  · intro s
    rfl

/-- Witness for the constructor-validation claim: an integer payload is
rejected, a string payload is accepted. -/
theorem sequence_ctor_validates_witness :
    Sequence.mk' (.vint 3) ['i', 'd'] = .error (.valueError "seq must be a str") ∧
    Sequence.mk' (.vstr ['A']) ['i', 'd'] =
      .ok { seqStr := ['A'], seqLst := ['A'], id := ['i', 'd'],
            kmers := [], features := [] } :=
  ⟨(sequence_ctor_validates ['i', 'd']).1 (.vint 3)
      (fun _ h => PyVal.noConfusion h),
    (sequence_ctor_validates ['i', 'd']).2 ['A']⟩

/-- Claim C10: getBase raises its descriptive ValueError exactly when
pos is at least the sequence length, and for a sequence of length at
least one and pos between -L and -1 it returns the character at
position L + pos. -/
theorem getBase_bounds (s : Sequence) (pos : Int) :
    ((∃ msg, Sequence.getBase s pos = .error (.valueError msg)) ↔
      (s.getLength : Int) ≤ pos) ∧
    (1 ≤ s.getLength → -(s.getLength : Int) ≤ pos → pos ≤ -1 →
      Sequence.getBase s pos =
        .ok (s.seqStr.getD ((s.getLength : Int) + pos).toNat ' ')) := by
  have hl : s.getLength = s.seqStr.length := rfl
  constructor
  · constructor
    · rintro ⟨msg, hmsg⟩
      by_contra hlt
      push_neg at hlt
      rw [Sequence.getBase, if_neg (by omega)] at hmsg
      rw [Sequence.pyIndex] at hmsg
      split at hmsg
      · exact Except.noConfusion hmsg
      · split at hmsg
        · exact Except.noConfusion hmsg
        · exact PyErr.noConfusion (Except.error.inj hmsg)
    · intro hge
      exact ⟨_, by rw [Sequence.getBase, if_pos (by omega)]⟩
  · intro h1 h2 h3
    rw [Sequence.getBase, if_neg (by omega)]
    rw [Sequence.pyIndex, if_neg (by omega), if_pos (by constructor <;> omega)]
    rfl

/-- Witness for the getBase claim: on the two-character sequence AT,
position -1 resolves to the final character T. -/
theorem getBase_bounds_witness :
    1 ≤ (⟨['A', 'T'], ['A', 'T'], [], [], []⟩ : Sequence).getLength ∧
    Sequence.getBase ⟨['A', 'T'], ['A', 'T'], [], [], []⟩ (-1) = .ok 'T' :=
  ⟨by decide,
    (getBase_bounds ⟨['A', 'T'], ['A', 'T'], [], [], []⟩ (-1)).2
      (by decide) (by decide) (by decide)⟩

theorem foldl_add_map (l : List Sequence) (g : Sequence → ℚ) (a : ℚ) :
    l.foldl (fun total m => total + g m) a = a + (l.map g).sum := by
  induction l generalizing a with
  | nil => simp
  | cons x xs ih =>
    simp [ih, add_assoc]

/-- Claim C2: after recomputeCentroid, a cluster with non-empty
membership has a centroid of the same dimensionality whose entry i is
the arithmetic mean over the members of feature entry i, and a cluster
with empty membership keeps its centroid unchanged. -/
theorem recomputeCentroid_mean (c : Cluster) :
    (c.members ≠ [] →
      (c.update).centroid.length = c.centroid.length ∧
      ∀ i, i < c.centroid.length →
        (c.update).centroid.getD i 0 =
          (c.members.map (fun m => m.features.getD i 0)).sum /
            (c.members.length : ℚ)) ∧
    (c.members = [] → (c.update).centroid = c.centroid) := by
  constructor
  · intro hne
    have hcount : ¬ c.members.length = 0 := by
      have := List.length_pos.mpr hne
      omega
    rw [Cluster.update, if_neg hcount]
    refine ⟨by simp, fun i hi => ?_⟩
    have hi' : i < ((List.range c.centroid.length).map (fun i =>
        (c.members.foldl (fun total m => total + m.features.getD i 0) 0) /
          (c.members.length : ℚ))).length := by
      simp [hi]
    rw [List.getD_eq_getElem _ _ hi']
    simp [foldl_add_map]
  · intro h
    simp [Cluster.update, h]

/-- Witness for the recomputeCentroid claim at the spec example:
members with feature vectors 1,3 and 3,5 give centroid 2,4. -/
theorem recomputeCentroid_mean_witness :
    (⟨[(0 : ℚ), 0], [],
      [⟨[], [], [], [], [1, 3]⟩, ⟨[], [], [], [], [3, 5]⟩]⟩ : Cluster).members ≠
      [] ∧
    ((⟨[(0 : ℚ), 0], [],
        [⟨[], [], [], [], [1, 3]⟩, ⟨[], [], [], [], [3, 5]⟩]⟩ : Cluster).update).centroid.length =
      (⟨[(0 : ℚ), 0], [],
        [⟨[], [], [], [], [1, 3]⟩, ⟨[], [], [], [], [3, 5]⟩]⟩ : Cluster).centroid.length ∧
    (∀ i, i < (⟨[(0 : ℚ), 0], [],
        [⟨[], [], [], [], [1, 3]⟩, ⟨[], [], [], [], [3, 5]⟩]⟩ : Cluster).centroid.length →
      ((⟨[(0 : ℚ), 0], [],
          [⟨[], [], [], [], [1, 3]⟩, ⟨[], [], [], [], [3, 5]⟩]⟩ : Cluster).update).centroid.getD i 0 =
        ((⟨[(0 : ℚ), 0], [],
            [⟨[], [], [], [], [1, 3]⟩, ⟨[], [], [], [], [3, 5]⟩]⟩ : Cluster).members.map
          (fun m => m.features.getD i 0)).sum /
          ((⟨[(0 : ℚ), 0], [],
            [⟨[], [], [], [], [1, 3]⟩, ⟨[], [], [], [], [3, 5]⟩]⟩ : Cluster).members.length : ℚ)) ∧
    ((⟨[(0 : ℚ), 0], [],
        [⟨[], [], [], [], [1, 3]⟩, ⟨[], [], [], [], [3, 5]⟩]⟩ : Cluster).update).centroid =
      [2, 4] :=
  ⟨by simp,
    ((recomputeCentroid_mean _).1 (by simp)).1,
    ((recomputeCentroid_mean _).1 (by simp)).2,
    by norm_num [Cluster.update, List.range_succ, List.getD]⟩

theorem foldl_max_spec (xs : List ℚ) (a : ℚ) :
    (xs.foldl (fun u b => if u < b then b else u) a = a ∨
      xs.foldl (fun u b => if u < b then b else u) a ∈ xs) ∧
    a ≤ xs.foldl (fun u b => if u < b then b else u) a ∧
    ∀ y ∈ xs, y ≤ xs.foldl (fun u b => if u < b then b else u) a := by
  induction xs generalizing a with
  | nil => simp
  | cons x t ih =>
    simp only [List.foldl_cons]
    by_cases hc : a < x
    · rw [if_pos hc]
      obtain ⟨hmem, hacc, hall⟩ := ih x
      refine ⟨?_, le_trans (le_of_lt hc) hacc, ?_⟩
      · rcases hmem with h' | h'
        · exact Or.inr (by rw [h']; exact List.mem_cons_self x t)
        · exact Or.inr (List.mem_cons_of_mem x h')
      · intro y hy
        rcases List.mem_cons.mp hy with h' | h'
        · exact h' ▸ hacc
        · exact hall y h'
    · rw [if_neg hc]
      obtain ⟨hmem, hacc, hall⟩ := ih a
      refine ⟨?_, hacc, ?_⟩
      · rcases hmem with h' | h'
        · exact Or.inl h'
        · exact Or.inr (List.mem_cons_of_mem x h')
      · intro y hy
        rcases List.mem_cons.mp hy with h' | h'
        · exact h' ▸ le_trans (le_of_not_lt hc) hacc
        · exact hall y h'

theorem pyMax_spec (l : List ℚ) (h : l ≠ []) :
    ∃ m, pyMax l = some m ∧ m ∈ l ∧ ∀ y ∈ l, y ≤ m := by
  cases l with
  | nil => exact absurd rfl h
  | cons x xs =>
    obtain ⟨hmem, hacc, hall⟩ := foldl_max_spec xs x
    refine ⟨xs.foldl (fun u b => if u < b then b else u) x, rfl, ?_, ?_⟩
    · rcases hmem with h' | h'
      · rw [h']
        exact List.mem_cons_self x xs
      · exact List.mem_cons_of_mem x h'
    · intro y hy
      rcases List.mem_cons.mp hy with h' | h'
      · exact h' ▸ hacc
      · exact hall y h'

theorem foldl_argmax_last (P : Nat → Prop) [DecidablePred P] :
    ∀ n : Nat, (∃ i, i < n ∧ P i) →
      P ((List.range n).foldl (fun idx i => if P i then i else idx) 0) ∧
      (List.range n).foldl (fun idx i => if P i then i else idx) 0 < n ∧
      ∀ j, (List.range n).foldl (fun idx i => if P i then i else idx) 0 < j →
        j < n → ¬ P j := by
  intro n
  induction n with
  | zero =>
    rintro ⟨i, hi, _⟩
    omega
  | succ n ih =>
    rintro ⟨i, hi, hPi⟩
    rw [List.range_succ, List.foldl_append, List.foldl_cons, List.foldl_nil]
    by_cases hPn : P n
    · rw [if_pos hPn]
      refine ⟨hPn, Nat.lt_succ_self n, fun j hj hj' => ?_⟩
      exact absurd hj' (by omega)
    · rw [if_neg hPn]
      have hex : ∃ i, i < n ∧ P i := by
        refine ⟨i, ?_, hPi⟩
        rcases Nat.lt_succ_iff_lt_or_eq.mp hi with h | h
        · exact h
        · exact absurd (h ▸ hPi) hPn
      obtain ⟨h1, h2, h3⟩ := ih hex
      refine ⟨h1, by omega, fun j hj hj' => ?_⟩
      rcases Nat.lt_succ_iff_lt_or_eq.mp hj' with h | h
      · exact h3 j hj h
      · exact h ▸ hPn

/-- Claim C1: for every sequence and every non-empty cluster list, the
assignment step computes the dot product of the sequence's features
against every centroid and chooses the index of the maximum dot
product, the last such index when several tie; the sequence is appended
to the membership of exactly that cluster. -/
theorem assign_last_argmax (seq : Sequence) (clusters : List Cluster)
    (h : clusters ≠ []) :
    ∃ idx,
      chooseCluster (computeDot seq.features clusters) = some idx ∧
      idx < clusters.length ∧
      (∀ j, j < clusters.length →
        dotProduct seq.features ((clusters.getD j emptyCluster).centroid) ≤
          dotProduct seq.features ((clusters.getD idx emptyCluster).centroid)) ∧
      (∀ j, idx < j → j < clusters.length →
        dotProduct seq.features ((clusters.getD j emptyCluster).centroid) <
          dotProduct seq.features ((clusters.getD idx emptyCluster).centroid)) ∧
      assignOne seq clusters =
        clusters.set idx ((clusters.getD idx emptyCluster).add seq) := by
  have hlenp : (computeDot seq.features clusters).length = clusters.length := by
    simp [computeDot]
  have hne : computeDot seq.features clusters ≠ [] := by
    intro hnil
    exact h (by simpa [hnil] using hlenp.symm)
  obtain ⟨m, hm, hmem, hub⟩ := pyMax_spec (computeDot seq.features clusters) hne
  have hprod : ∀ j, j < clusters.length →
      (computeDot seq.features clusters).getD j 0 =
        dotProduct seq.features ((clusters.getD j emptyCluster).centroid) := by
    intro j hj
    rw [List.getD_eq_getElem _ _ (by omega : j < (computeDot seq.features clusters).length),
      List.getD_eq_getElem _ _ hj]
    simp [computeDot]
  have hexP : ∃ i, i < (computeDot seq.features clusters).length ∧
      (computeDot seq.features clusters).getD i 0 = m := by
    obtain ⟨n, hn, hval⟩ := List.mem_iff_getElem.mp hmem
    exact ⟨n, hn, by rw [List.getD_eq_getElem _ _ hn]; exact hval⟩
  obtain ⟨hP, hlt, hlast⟩ :=
    foldl_argmax_last (fun i => (computeDot seq.features clusters).getD i 0 = m)
      (computeDot seq.features clusters).length hexP
  set idx := (List.range (computeDot seq.features clusters).length).foldl
    (fun idx i => if (computeDot seq.features clusters).getD i 0 = m then i else idx) 0
    with hidx
  have hchoose : chooseCluster (computeDot seq.features clusters) = some idx := by
    rw [chooseCluster, hm]
    rfl
  have hidxlt : idx < clusters.length := by omega
  refine ⟨idx, hchoose, hidxlt, ?_, ?_, ?_⟩
  · intro j hj
    rw [← hprod j hj, ← hprod idx hidxlt, hP]
    refine hub _ ?_
    rw [List.getD_eq_getElem _ _ (by omega : j < (computeDot seq.features clusters).length)]
    exact List.getElem_mem _
  · intro j hjl hj
    have hle : (computeDot seq.features clusters).getD j 0 ≤ m := by
      refine hub _ ?_
      rw [List.getD_eq_getElem _ _ (by omega : j < (computeDot seq.features clusters).length)]
      exact List.getElem_mem _
    have hneq : (computeDot seq.features clusters).getD j 0 ≠ m :=
      hlast j hjl (by omega)
    rw [← hprod j hj, ← hprod idx hidxlt, hP]
    exact lt_of_le_of_ne hle hneq
  · rw [assignOne, hchoose]

/-- Witness for the assignment claim at the spec tie-break scenario:
two clusters whose centroids both yield dot product 5 against the
sequence; the chosen index is the higher one. -/
theorem assign_last_argmax_witness :
    ([⟨[(1 : ℚ)], [], []⟩, ⟨[(1 : ℚ)], [], []⟩] : List Cluster) ≠ [] ∧
    (∃ idx,
      chooseCluster (computeDot
        (⟨[], [], [], [], [(5 : ℚ)]⟩ : Sequence).features
        [⟨[(1 : ℚ)], [], []⟩, ⟨[(1 : ℚ)], [], []⟩]) = some idx ∧
      idx < ([⟨[(1 : ℚ)], [], []⟩, ⟨[(1 : ℚ)], [], []⟩] : List Cluster).length ∧
      (∀ j, j < ([⟨[(1 : ℚ)], [], []⟩, ⟨[(1 : ℚ)], [], []⟩] : List Cluster).length →
        dotProduct (⟨[], [], [], [], [(5 : ℚ)]⟩ : Sequence).features
            ((([⟨[(1 : ℚ)], [], []⟩, ⟨[(1 : ℚ)], [], []⟩] : List Cluster).getD j
              emptyCluster).centroid) ≤
          dotProduct (⟨[], [], [], [], [(5 : ℚ)]⟩ : Sequence).features
            ((([⟨[(1 : ℚ)], [], []⟩, ⟨[(1 : ℚ)], [], []⟩] : List Cluster).getD idx
              emptyCluster).centroid)) ∧
      (∀ j, idx < j →
        j < ([⟨[(1 : ℚ)], [], []⟩, ⟨[(1 : ℚ)], [], []⟩] : List Cluster).length →
        dotProduct (⟨[], [], [], [], [(5 : ℚ)]⟩ : Sequence).features
            ((([⟨[(1 : ℚ)], [], []⟩, ⟨[(1 : ℚ)], [], []⟩] : List Cluster).getD j
              emptyCluster).centroid) <
          dotProduct (⟨[], [], [], [], [(5 : ℚ)]⟩ : Sequence).features
            ((([⟨[(1 : ℚ)], [], []⟩, ⟨[(1 : ℚ)], [], []⟩] : List Cluster).getD idx
              emptyCluster).centroid)) ∧
      assignOne (⟨[], [], [], [], [(5 : ℚ)]⟩ : Sequence)
          [⟨[(1 : ℚ)], [], []⟩, ⟨[(1 : ℚ)], [], []⟩] =
        ([⟨[(1 : ℚ)], [], []⟩, ⟨[(1 : ℚ)], [], []⟩] : List Cluster).set idx
          ((([⟨[(1 : ℚ)], [], []⟩, ⟨[(1 : ℚ)], [], []⟩] : List Cluster).getD idx
            emptyCluster).add (⟨[], [], [], [], [(5 : ℚ)]⟩ : Sequence))) ∧
    chooseCluster (computeDot
      (⟨[], [], [], [], [(5 : ℚ)]⟩ : Sequence).features
      [⟨[(1 : ℚ)], [], []⟩, ⟨[(1 : ℚ)], [], []⟩]) = some 1 :=
  ⟨by simp,
    assign_last_argmax (⟨[], [], [], [], [(5 : ℚ)]⟩ : Sequence)
      [⟨[(1 : ℚ)], [], []⟩, ⟨[(1 : ℚ)], [], []⟩] (by simp),
    by norm_num [chooseCluster, computeDot, pyMax, dotProduct, List.range_succ,
      List.getD]⟩

theorem length_assignOne (s : Sequence) (cs : List Cluster) :
    (assignOne s cs).length = cs.length := by
  rw [assignOne]
  cases chooseCluster (computeDot s.features cs) with
  | none => rfl
  | some idx => simp

theorem length_assignSeqs (seqs : List Sequence) :
    ∀ cs : List Cluster, (assignSeqs seqs cs).length = cs.length := by
  induction seqs with
  | nil => intro cs; rfl
  | cons s t ih =>
    intro cs
    have hstep := ih (assignOne s cs)
    rw [assignSeqs, List.foldl_cons]
    rw [assignSeqs] at hstep
    rw [hstep, length_assignOne]

theorem length_iterateOnce (seqs : List Sequence) (cs : List Cluster) :
    (iterateOnce seqs cs).length = cs.length := by
  rw [iterateOnce, updateClusters, List.length_map, length_assignSeqs,
    clearClusters, List.length_map]

theorem checkClusters_all (k : Nat) (cs : List Cluster) (hk : k = cs.length)
    (h : checkClusters k cs = true) : ∀ c ∈ cs, c.check = true := by
  rw [checkClusters, beq_iff_eq, hk, List.countP_eq_length] at h
  exact h

theorem executeLoop_spec (seqs : List Sequence) (k limit : Nat) :
    ∀ fuel run cs, limit - run ≤ fuel → run ≤ limit → k = cs.length →
      ∃ passes,
        executeLoop seqs k limit run cs =
          ((iterateOnce seqs)^[passes] cs, run + passes) ∧
        run + passes ≤ limit ∧
        ((∀ c ∈ (executeLoop seqs k limit run cs).1, c.check = true) ∨
          run + passes = limit) := by
  intro fuel
  induction fuel with
  | zero =>
    intro run cs hfuel hrun hk
    have hstop : limit ≤ run := by omega
    rw [executeLoop, dif_pos (Or.inr hstop)]
    exact ⟨0, by simp, by omega, Or.inr (by omega)⟩
  | succ fuel ih =>
    intro run cs hfuel hrun hk
    by_cases hc : checkClusters k cs = true ∨ limit ≤ run
    · rw [executeLoop, dif_pos hc]
      rcases hc with hc | hc
      · exact ⟨0, by simp, by omega, Or.inl (checkClusters_all k cs hk hc)⟩
      · exact ⟨0, by simp, by omega, Or.inr (by omega)⟩
    · have hrun' : run < limit := by
        rcases Nat.lt_or_ge run limit with h' | h'
        · exact h'
        · exact absurd (Or.inr h') hc
      obtain ⟨passes, heq, hle, hterm⟩ :=
        ih (run + 1) (iterateOnce seqs cs) (by omega) (by omega)
          (by rw [length_iterateOnce]; exact hk)
      rw [executeLoop, dif_neg hc]
      refine ⟨passes + 1, ?_, by omega, ?_⟩
      · rw [heq, Function.iterate_succ_apply, Prod.mk.injEq]
        exact ⟨rfl, by omega⟩
      · rcases hterm with hterm | hterm
        · exact Or.inl hterm
        · exact Or.inr (by omega)

/-- Claim C3: for every corpus, every initial cluster state with k
clusters, and every positive iteration limit, the run loop of execute
is a total function whose result is reached after a number of
assignment/update passes strictly below the limit, and at exit either
every cluster's convergence check holds or the run counter has reached
the limit. -/
theorem execute_terminates (seqs : List Sequence) (k limit : Nat)
    (clusters : List Cluster) (hpos : 0 < limit) (hk : k = clusters.length) :
    ∃ passes,
      execute seqs k limit clusters =
        ((iterateOnce seqs)^[passes] clusters, 1 + passes) ∧
      passes < limit ∧
      ((∀ c ∈ (execute seqs k limit clusters).1, c.check = true) ∨
        1 + passes = limit) := by
  obtain ⟨passes, heq, hle, hterm⟩ :=
    executeLoop_spec seqs k limit (limit - 1) 1 clusters (by omega) hpos hk
  exact ⟨passes, heq, by omega, hterm⟩

/-- Witness for the termination claim: with no sequences, no clusters,
k = 0 and limit 1, the loop exits at once with zero passes. -/
theorem execute_terminates_witness :
    0 < 1 ∧ (0 : Nat) = ([] : List Cluster).length ∧
    ∃ passes,
      execute [] 0 1 [] = ((iterateOnce [])^[passes] [], 1 + passes) ∧
      passes < 1 ∧
      ((∀ c ∈ (execute [] 0 1 []).1, c.check = true) ∨ 1 + passes = 1) :=
  ⟨Nat.one_pos, rfl, execute_terminates [] 0 1 [] Nat.one_pos rfl⟩

end KMeansModel
